import Mathlib

/-!
Verification development for the Monkey interpreter repository
(lexer, Pratt parser, AST rendering, object model, environment, evaluator).

Source inventory modelled here:
* `token/token.go` (root package) and `src/token/token.go` — token kinds,
  `Token` struct, `LookupIdent`.
* `lexer/lexer.go` (root package) — the lexer present in the snapshot;
  it handles `= ; ( ) , + { }`, identifiers, integers, `ILLEGAL`, `EOF`.
* `src/ast/ast.go` (the revision with `String()` renderings) — AST nodes
  and their render functions.
* `src/parser/parser.go` (the Pratt revision) — precedences, `ParseProgram`,
  `parseStatement`, `parseLetStatement` (which skips to the semicolon and
  leaves `Value` unset, per its TODO comment), `parseExpression`, the
  registered prefixed/infixed parse functions, `expectPeek`, `peekError`.
* `src/object/object.go` — the object (value) model.
* `src/object/environment.go` — `Environment`, `Get`, `Set`.
* `src/evaluator/evaluator.go` — `Eval` and its helpers.

Conventions of the embedding:
* Go strings handled character-wise are `List Char`; token-kind strings and
  error messages are Lean `String`s (Go's `TokenType` is a string type).
* Go's `byte` sentinel `0` is the character `nul`.
* A Go function that can panic is embedded with an `Option` result where
  `none` is the panic; a Go interface value that can be `nil` is an
  `Option`; loops whose termination is not structural take a fuel
  argument, and divergence shows up as `none` for every fuel.
* Machine integers (`int64`) are `Int` results normalised by `wrap64`.
-/

namespace Monkey

/-- Sentinel zero byte used by the lexer for end of input. -/
def nul : Char := Char.ofNat 0

/-- Character of `inp` at index `p`, with the lexer's sentinel as default. -/
def charAt (inp : List Char) (p : Nat) : Char := inp.getD p nul

/-! ## Token model: `token/token.go` and `src/token/token.go`.
Go's `TokenType` is a string; the constants below carry the exact string
values from the source. The namespace `tok` stands for the Go package
`token` (the `src/token` revision, whose constants are a superset of the
root revision's with identical values on the shared names). -/

namespace tok

def ILLEGAL : String := "ILLEGAL"
def EOF : String := "EOF"
def IDENT : String := "IDENT"
def INT : String := "INT"
def STRING : String := "STRING"
def ASSIGN : String := "="
def PLUS : String := "+"
def MINUS : String := "-"
def BANG : String := "!"
def ASTERISK : String := "*"
def SLASH : String := "/"
def EQ : String := "=="
def NOT_EQ : String := "!="
def LT : String := "<"
def GT : String := ">"
def COMMA : String := ","
def SEMICOLON : String := ";"
def LPAREN : String := "("
def RPAREN : String := ")"
def LBRACE : String := "\x7b"
def RBRACE : String := "\x7d"
def FUNCTION : String := "FUNCTION"
def LET : String := "LET"
def TRUE : String := "TRUE"
def FALSE : String := "FALSE"
def IF : String := "IF"
def ELSE : String := "ELSE"
def RETURN : String := "RETURN"

/-- the `keywords` map of `src/token/token.go` together with `LookupIdent`:
reserved words map to their kinds, everything else is `IDENT`. -/
def LookupIdent (ident : List Char) : String :=
  if ident = "fn".data then FUNCTION
  else if ident = "let".data then LET
  else if ident = "true".data then TRUE
  else if ident = "false".data then FALSE
  else if ident = "if".data then IF
  else if ident = "else".data then ELSE
  else if ident = "return".data then RETURN
  else IDENT

/-- the `keywords` map of the root `token/token.go` revision (only `fn` and
`let`) with its `LookupIdent`. -/
def LookupIdentRoot (ident : List Char) : String :=
  if ident = "fn".data then FUNCTION
  else if ident = "let".data then LET
  else IDENT

end tok

/-- `token.Token`: a kind (Go `TokenType`, a string) and the literal text. -/
structure Token where
  type : String
  literal : List Char
  deriving Repr, DecidableEq

/-- `newToken` of `lexer/lexer.go`: a token from a single character. -/
def newToken (tokenType : String) (ch : Char) : Token :=
  ⟨tokenType, [ch]⟩

/-! ## Lexer state: the `Lexer` struct shared by both lexer revisions. -/

/-- the `Lexer` struct: input, current position, next read position and the
one-character lookahead `ch`. -/
structure Lexer where
  input : List Char
  position : Nat
  readPosition : Nat
  ch : Char
  deriving Repr, DecidableEq

/-- `Lexer.readChar`: load `input[readPosition]` (or the zero sentinel at the
end) into `ch` and advance both positions. -/
def readChar (l : Lexer) : Lexer :=
  Lexer.mk l.input l.readPosition (l.readPosition + 1)
    (if l.input.length ≤ l.readPosition then nul else charAt l.input l.readPosition)

/-- `lexer.New`: start at the zero state and read the first character. -/
def Lexer.new (input : List Char) : Lexer :=
  readChar (Lexer.mk input 0 0 nul)

/-- `isLetter` of `lexer/lexer.go`: ASCII letters and underscore. -/
def isLetter (ch : Char) : Bool :=
  ('a' ≤ ch && ch ≤ 'z') || ('A' ≤ ch && ch ≤ 'Z') || ch = '_'

/-- `isDigit` of `lexer/lexer.go`. -/
def isDigit (ch : Char) : Bool :=
  '0' ≤ ch && ch ≤ '9'

/-- whitespace recognised by `skipWhitespace`: space, tab, LF, CR. -/
def isWS (ch : Char) : Bool :=
  ch = ' ' || ch = '\t' || ch = '\n' || ch = '\r'

/-- the loop of `skipWhitespace`, with fuel (the loop advances one character
per iteration; `input.length + 1` fuel always suffices, see
`skipWhitespaceF_spec`). -/
def skipWhitespaceF : Nat → Lexer → Lexer
  | 0, l => l
  | fuel + 1, l => if isWS l.ch then skipWhitespaceF fuel (readChar l) else l

/-- `Lexer.skipWhitespace` with the always-sufficient fuel. -/
def skipWhitespace (l : Lexer) : Lexer :=
  skipWhitespaceF (l.input.length + 1) l

/-- the loop of `readIdentifier`: advance while the current char is a letter. -/
def readLettersF : Nat → Lexer → Lexer
  | 0, l => l
  | fuel + 1, l => if isLetter l.ch then readLettersF fuel (readChar l) else l

/-- the slice `l.input[a:b]` of a Go string. -/
def slice (inp : List Char) (a b : Nat) : List Char :=
  (inp.drop a).take (b - a)

/-- `Lexer.readIdentifier`: remember the start position, advance over the
letter run, return the consumed slice (and the lexer after the run). -/
def readIdentifier (l : Lexer) : List Char × Lexer :=
  let l' := readLettersF (l.input.length + 1) l
  (slice l.input l.position l'.position, l')

/-- the loop of `readNumber`: advance while the current char is a digit. -/
def readDigitsF : Nat → Lexer → Lexer
  | 0, l => l
  | fuel + 1, l => if isDigit l.ch then readDigitsF fuel (readChar l) else l

/-- `Lexer.readNumber`: like `readIdentifier` but over a digit run. -/
def readNumber (l : Lexer) : List Char × Lexer :=
  let l' := readDigitsF (l.input.length + 1) l
  (slice l.input l.position l'.position, l')

/-! ## `lexer/lexer.go` (root package): `NextToken`.
The switch handles `= ; ( ) , + { }`, the zero sentinel (EOF), then the
default branch: letter runs (identifiers/keywords via the root
`LookupIdent`), digit runs (INT), anything else ILLEGAL. Identifier and
number branches return without the trailing `readChar`; all others
perform it. -/

namespace RootLexer

/-- the dispatch of `NextToken` (everything after the whitespace skip). -/
def nextTokenD (l : Lexer) : Token × Lexer :=
  if l.ch = '=' then (newToken tok.ASSIGN l.ch, readChar l)
  else if l.ch = ';' then (newToken tok.SEMICOLON l.ch, readChar l)
  else if l.ch = '(' then (newToken tok.LPAREN l.ch, readChar l)
  else if l.ch = ')' then (newToken tok.RPAREN l.ch, readChar l)
  else if l.ch = ',' then (newToken tok.COMMA l.ch, readChar l)
  else if l.ch = '+' then (newToken tok.PLUS l.ch, readChar l)
  else if l.ch = '{' then (newToken tok.LBRACE l.ch, readChar l)
  else if l.ch = '}' then (newToken tok.RBRACE l.ch, readChar l)
  else if l.ch = nul then (Token.mk tok.EOF [], readChar l)
  else if isLetter l.ch then
    let p := readIdentifier l
    (Token.mk (tok.LookupIdentRoot p.1) p.1, p.2)
  else if isDigit l.ch then
    let p := readNumber l
    (Token.mk tok.INT p.1, p.2)
  else (newToken tok.ILLEGAL l.ch, readChar l)

/-- `Lexer.NextToken` of `lexer/lexer.go`: skip whitespace, then dispatch. -/
def nextToken (l : Lexer) : Token × Lexer :=
  nextTokenD (skipWhitespace l)

/-- repeatedly call `NextToken`, collecting tokens up to and including the
first `EOF`, with fuel bounding the number of calls. -/
def lexAllF : Nat → Lexer → List Token
  | 0, _ => []
  | fuel + 1, l =>
    let p := nextToken l
    if p.1.type = tok.EOF then [p.1] else p.1 :: lexAllF fuel p.2

/-- the token stream of a source string: `input.length + 1` calls always
reach `EOF` (proved below). -/
def tokensOf (input : List Char) : List Token :=
  lexAllF (input.length + 1) (Lexer.new input)

end RootLexer

example : RootLexer.tokensOf "let xy = 7;".data =
    [⟨tok.LET, "let".data⟩, ⟨tok.IDENT, "xy".data⟩, ⟨tok.ASSIGN, "=".data⟩,
     ⟨tok.INT, "7".data⟩, ⟨tok.SEMICOLON, ";".data⟩, ⟨tok.EOF, []⟩] := by decide

/-! ## The pipeline lexer (`src/lexer` package).
Modelled from the spec: the Go package `src/lexer` — the one imported by
`src/parser`, `src/evaluator` and `src/repl` — is not present in the
snapshot (only its callers are). Its `NextToken` is modelled from spec
§4.1: single-character operators and delimiters, `==`/`!=` via one-character
lookahead, strings between double quotes, identifier/digit runs, `ILLEGAL`
otherwise; every branch except identifier/integer/string advances one
character before returning. It reuses the `Lexer` state and helpers above,
and the `src/token` `LookupIdent`. -/

namespace SrcLexer

/-- one-character lookahead (`peekChar`): the character at `readPosition`,
or the zero sentinel at the end. -/
def peekChar (l : Lexer) : Char :=
  if l.input.length ≤ l.readPosition then nul else charAt l.input l.readPosition

/-- Modelled from the spec: the loop of `readString` — advance, stop on a
closing quote or the end sentinel. -/
def readStringLoopF : Nat → Lexer → Lexer
  | 0, l => l
  | fuel + 1, l =>
    let l' := readChar l
    if l'.ch = '"' || l'.ch = nul then l' else readStringLoopF fuel l'

/-- Modelled from the spec: `readString` — the content between the quotes
(an unclosed string terminates silently at end of input). -/
def readString (l : Lexer) : List Char × Lexer :=
  let l' := readStringLoopF (l.input.length + 1) l
  (slice l.input (l.position + 1) l'.position, l')

/-- Modelled from the spec: the dispatch of `NextToken` (everything after
the whitespace has been skipped). -/
def nextTokenD (l : Lexer) : Token × Lexer :=
  if l.ch = '=' then
    if peekChar l = '=' then (Token.mk tok.EQ "==".data, readChar (readChar l))
    else (newToken tok.ASSIGN l.ch, readChar l)
  else if l.ch = '!' then
    if peekChar l = '=' then (Token.mk tok.NOT_EQ "!=".data, readChar (readChar l))
    else (newToken tok.BANG l.ch, readChar l)
  else if l.ch = '+' then (newToken tok.PLUS l.ch, readChar l)
  else if l.ch = '-' then (newToken tok.MINUS l.ch, readChar l)
  else if l.ch = '*' then (newToken tok.ASTERISK l.ch, readChar l)
  else if l.ch = '/' then (newToken tok.SLASH l.ch, readChar l)
  else if l.ch = '<' then (newToken tok.LT l.ch, readChar l)
  else if l.ch = '>' then (newToken tok.GT l.ch, readChar l)
  else if l.ch = ';' then (newToken tok.SEMICOLON l.ch, readChar l)
  else if l.ch = ',' then (newToken tok.COMMA l.ch, readChar l)
  else if l.ch = '(' then (newToken tok.LPAREN l.ch, readChar l)
  else if l.ch = ')' then (newToken tok.RPAREN l.ch, readChar l)
  else if l.ch = '{' then (newToken tok.LBRACE l.ch, readChar l)
  else if l.ch = '}' then (newToken tok.RBRACE l.ch, readChar l)
  else if l.ch = '"' then
    let p := readString l
    (Token.mk tok.STRING p.1, readChar p.2)
  else if l.ch = nul then (Token.mk tok.EOF [], readChar l)
  else if isLetter l.ch then
    let p := readIdentifier l
    (Token.mk (tok.LookupIdent p.1) p.1, p.2)
  else if isDigit l.ch then
    let p := readNumber l
    (Token.mk tok.INT p.1, p.2)
  else (newToken tok.ILLEGAL l.ch, readChar l)

/-- Modelled from the spec: `NextToken` of the missing `src/lexer/lexer.go` —
skip whitespace, then dispatch. -/
def nextToken (l : Lexer) : Token × Lexer :=
  nextTokenD (skipWhitespace l)

end SrcLexer

/-! ## AST: `src/ast/ast.go` (the revision carrying `String()` renders).
Each node keeps the token that introduced it. Fields that hold a Go
interface value that may be `nil` (`LetStatement.Value`,
`ReturnStatement.ReturnValue`, `ExpressionStatement.Expression`, the
children of prefixed/infixed operator nodes, call arguments) are
`Option`s. `CallExpression` is constructed by `src/parser/parser.go`
(`Token`, `Function`, `Arguments`); its own `ast.go` declaration is not in
the snapshot, so its render below is modelled from the spec. -/

/-- `ast.Identifier`: token and name. -/
structure Ident where
  token : Token
  value : List Char
  deriving Repr, DecidableEq

mutual

/-- the `ast.Expression` variants of the source. -/
inductive Expr where
  | identE : Ident → Expr
  | intLit : Token → Int → Expr
  | boolLit : Token → Bool → Expr
  | prefixE : Token → List Char → Option Expr → Expr
  | infixE : Token → Option Expr → List Char → Option Expr → Expr
  | ifE : Token → Option Expr → Block → Option Block → Expr
  | funcLit : Token → List Ident → Block → Expr
  | callE : Token → Option Expr → List (Option Expr) → Expr
  deriving Repr

/-- `ast.BlockStatement`: brace token and statements. The list elements are
`Option Stmt` because in Go the slice holds `ast.Statement` interface
values, and a failed `parseStatement` hands back a nil POINTER inside a
non-nil interface (a typed nil), which the `stmt != nil` check does not
filter out — so nil statements can sit in the slice (`none` here). -/
inductive Block where
  | mk : Token → List (Option Stmt) → Block
  deriving Repr

/-- the `ast.Statement` variants of the source. -/
inductive Stmt where
  | letS : Token → Ident → Option Expr → Stmt
  | returnS : Token → Option Expr → Stmt
  | exprStmt : Token → Option Expr → Stmt
  | blockS : Block → Stmt
  deriving Repr

end

/-- `ast.Program`: the ordered statements — `Option Stmt` elements for the
same typed-nil reason as `Block` (a failed let/return parse is appended to
`Statements` as a nil pointer wrapped in a non-nil interface). -/
structure Program where
  statements : List (Option Stmt)
  deriving Repr

/-- `strings.Join` with a separator, as used by the renders. -/
def joinSep (sep : List Char) : List (List Char) → List Char
  | [] => []
  | [x] => x
  | x :: rest => x ++ sep ++ joinSep sep rest

mutual

/-- the `String()` renders of the expression nodes. A `nil` child of a
prefixed/infixed operator node renders as the empty string here (the Go
source would dereference it and panic; no theorem exercises that case). -/
def renderExpr : Expr → List Char
  | .identE i => i.value
  | .intLit t _ => t.literal
  | .boolLit t _ => t.literal
  | .prefixE _ op r => ['('] ++ op ++ renderOptExpr r ++ [')']
  | .infixE _ l op r =>
      ['('] ++ renderOptExpr l ++ [' '] ++ op ++ [' '] ++ renderOptExpr r ++ [')']
  | .ifE _ c cons alt =>
      "if".data ++ renderOptExpr c ++ [' '] ++ renderBlock cons ++
        (match alt with
          | some a => "else ".data ++ renderBlock a
          | none => [])
  | .funcLit t ps b =>
      t.literal ++ ['('] ++ joinSep ", ".data (ps.map Ident.value) ++ ") ".data ++
        renderBlock b
  | .callE _ f args =>
      renderOptExpr f ++ ['('] ++ joinSep ", ".data (renderArgs args) ++ [')']

def renderOptExpr : Option Expr → List Char
  | some e => renderExpr e
  | none => []

def renderArgs : List (Option Expr) → List (List Char)
  | [] => []
  | a :: rest => renderOptExpr a :: renderArgs rest

/-- `BlockStatement.String`: concatenation of the member statements. -/
def renderBlock : Block → List Char
  | .mk _ sts => renderStmts sts

def renderStmts : List (Option Stmt) → List Char
  | [] => []
  | s :: rest => renderOptStmt s ++ renderStmts rest

/-- render of a possibly-nil statement pointer: the Go source would call
`String()` on the nil receiver and panic dereferencing it; rendered empty
here, no theorem exercises that case. -/
def renderOptStmt : Option Stmt → List Char
  | some s => renderStmt s
  | none => []

/-- the `String()` renders of the statement nodes (`let`/`return` include a
value only when it is set, expression statements render their expression
or nothing). -/
def renderStmt : Stmt → List Char
  | .letS t n v =>
      t.literal ++ [' '] ++ n.value ++ " = ".data ++
        (match v with | some e => renderExpr e | none => []) ++ [';']
  | .returnS t v =>
      t.literal ++ [' '] ++
        (match v with | some e => renderExpr e | none => []) ++ [';']
  | .exprStmt _ e => (match e with | some e => renderExpr e | none => [])
  | .blockS b => renderBlock b

end

/-- `Program.String`: concatenation of the statements' renders. -/
def renderProgram (p : Program) : List Char :=
  renderStmts p.statements

/-! ## Parser: `src/parser/parser.go` (the Pratt revision).
The `Parser` struct is the lexer, the accumulated error strings and the
two-token window. The dispatch maps `prefixParseFns`/`infixParseFns` are
populated once in `New`; they are embedded as the total functions
`hasPrefixFn`/`hasInfixFn` plus the dispatch in `applyPrefixF` /
`applyInfixF`, which mirror exactly the registrations performed in `New`.
Loops and recursion take fuel as their first argument; `none` means the
fuel ran out (so a function that diverges yields `none` at every fuel). -/

/-- the precedence constants (`iota` starting at 1). -/
def LOWEST : Nat := 1
def EQUALS : Nat := 2
def LESSGREATER : Nat := 3
def SUM : Nat := 4
def PRODUCT : Nat := 5
def PREFIX : Nat := 6
def CALL : Nat := 7

/-- the `precedences` map; absent kinds give `LOWEST`. -/
def precedenceOf (t : String) : Nat :=
  if t = tok.EQ then EQUALS
  else if t = tok.NOT_EQ then EQUALS
  else if t = tok.LT then LESSGREATER
  else if t = tok.GT then LESSGREATER
  else if t = tok.PLUS then SUM
  else if t = tok.MINUS then SUM
  else if t = tok.SLASH then PRODUCT
  else if t = tok.ASTERISK then PRODUCT
  else if t = tok.LPAREN then CALL
  else LOWEST

/-- the `Parser` struct (lexer, errors, current and peek token). -/
structure ParserS where
  l : Lexer
  errors : List String
  curToken : Token
  peekToken : Token
  deriving Repr, DecidableEq

/-- `Parser.nextToken`: shift the window and pull one token from the lexer. -/
def pnext (s : ParserS) : ParserS :=
  let p := SrcLexer.nextToken s.l
  ParserS.mk p.2 s.errors s.peekToken p.1

/-- append a parser error message. -/
def addError (s : ParserS) (msg : String) : ParserS :=
  ParserS.mk s.l (s.errors ++ [msg]) s.curToken s.peekToken

/-- `Parser.peekError`: the message appended when `expectPeek` fails. -/
def peekError (s : ParserS) (t : String) : ParserS :=
  addError s ("expected next token to be " ++ t ++ ", got " ++
    s.peekToken.type ++ " instead")

/-- `Parser.expectPeek`: advance when the peek token matches, else record
the error. -/
def expectPeek (s : ParserS) (t : String) : Bool × ParserS :=
  if s.peekToken.type = t then (true, pnext s) else (false, peekError s t)

/-- `Parser.peekPrecedence`. -/
def peekPrecedence (s : ParserS) : Nat := precedenceOf s.peekToken.type

/-- `Parser.curPrecedence`. -/
def curPrecedence (s : ParserS) : Nat := precedenceOf s.curToken.type

/-- `Parser.noPrefixParseFnError`. -/
def noPrefixFnMsg (t : String) : String :=
  "no prefix parse function for " ++ t ++ " found"

/-- the token kinds registered in `prefixParseFns` by `New`. -/
def hasPrefixFn (t : String) : Bool :=
  t = tok.IDENT || t = tok.INT || t = tok.BANG || t = tok.MINUS ||
  t = tok.TRUE || t = tok.FALSE || t = tok.LPAREN || t = tok.IF ||
  t = tok.FUNCTION

/-- the token kinds registered in `infixParseFns` by `New`. -/
def hasInfixFn (t : String) : Bool :=
  t = tok.PLUS || t = tok.MINUS || t = tok.SLASH || t = tok.ASTERISK ||
  t = tok.EQ || t = tok.NOT_EQ || t = tok.LT || t = tok.GT || t = tok.LPAREN

/-- `strconv.ParseInt(lit, 0, 64)` restricted to the lexer's digit-run
literals: base 0 reads a literal with a leading `0` as octal (digits 8/9
then fail), otherwise decimal; out-of-range values (above `2^63 - 1`, as
the input is unsigned here) fail. `none` is Go's non-nil `err`. -/
def goParseInt (s : List Char) : Option Int :=
  let digVal : Char → Nat := fun c => c.toNat - '0'.toNat
  match s with
  | [] => none
  | ['0'] => some 0
  | '0' :: rest =>
      if rest.all (fun c => isDigit c && digVal c < 8) then
        let n := rest.foldl (fun acc c => acc * 8 + digVal c) 0
        if n ≤ 2 ^ 63 - 1 then some (Int.ofNat n) else none
      else none
  | _ =>
      if s.all isDigit then
        let n := s.foldl (fun acc c => acc * 10 + digVal c) 0
        if n ≤ 2 ^ 63 - 1 then some (Int.ofNat n) else none
      else none

/-- `Parser.parseIdentifier`. -/
def parseIdentifier (s : ParserS) : Option Expr × ParserS :=
  (some (Expr.identE (Ident.mk s.curToken s.curToken.literal)), s)

/-- `Parser.parseIntegerLiteral` (the `%q` of the error message quotes the
literal). -/
def parseIntegerLiteral (s : ParserS) : Option Expr × ParserS :=
  match goParseInt s.curToken.literal with
  | some v => (some (Expr.intLit s.curToken v), s)
  | none =>
      (none, addError s ("could not parse \"" ++ String.mk s.curToken.literal ++
        "\" as integer"))

/-- `Parser.parseBoolean`. -/
def parseBoolean (s : ParserS) : Expr :=
  Expr.boolLit s.curToken (s.curToken.type = tok.TRUE)

mutual

/-- the loop of `Parser.ParseProgram`: parse statements until the current
token is `EOF`, advancing after each. The source guards the append with
`if stmt != nil`, but `parseStatement` returns through typed branches
(`return p.parseLetStatement()` etc.), so even a failed parse yields a
nil POINTER inside a NON-nil interface — the guard is always true and the
(possibly nil) statement is always appended. -/
def parseProgramLoop : Nat → List (Option Stmt) → ParserS →
    Option (List (Option Stmt) × ParserS)
  | 0, _, _ => none
  | fuel + 1, acc, s =>
    if s.curToken.type = tok.EOF then some (acc, s)
    else
      match parseStatementF fuel s with
      | none => none
      | some (st?, s') => parseProgramLoop fuel (acc ++ [st?]) (pnext s')

/-- `Parser.parseStatement`: dispatch on the current token kind. -/
def parseStatementF : Nat → ParserS → Option (Option Stmt × ParserS)
  | 0, _ => none
  | fuel + 1, s =>
    if s.curToken.type = tok.LET then parseLetStatementF fuel s
    else if s.curToken.type = tok.RETURN then parseReturnStatementF fuel s
    else parseExpressionStatementF fuel s

/-- `Parser.parseLetStatement`: expect `IDENT` then `ASSIGN`, and then —
per the source's TODO — skip tokens until a semicolon, leaving the
statement's value unset (`none`). -/
def parseLetStatementF : Nat → ParserS → Option (Option Stmt × ParserS)
  | 0, _ => none
  | fuel + 1, s =>
    let letTok := s.curToken
    match expectPeek s tok.IDENT with
    | (false, s') => some (none, s')
    | (true, s') =>
      let name := Ident.mk s'.curToken s'.curToken.literal
      match expectPeek s' tok.ASSIGN with
      | (false, s'') => some (none, s'')
      | (true, s'') =>
        match skipToSemicolonF fuel s'' with
        | none => none
        | some s3 => some (some (Stmt.letS letTok name none), s3)

/-- the `for !p.curTokenIs(token.SEMICOLON) { p.nextToken() }` loop shared
by the let/return parsers. -/
def skipToSemicolonF : Nat → ParserS → Option ParserS
  | 0, _ => none
  | fuel + 1, s =>
    if s.curToken.type = tok.SEMICOLON then some s
    else skipToSemicolonF fuel (pnext s)

/-- `Parser.parseReturnStatement`: advance, then skip to the semicolon
(the TODO again); the return value stays unset. -/
def parseReturnStatementF : Nat → ParserS → Option (Option Stmt × ParserS)
  | 0, _ => none
  | fuel + 1, s =>
    let retTok := s.curToken
    match skipToSemicolonF fuel (pnext s) with
    | none => none
    | some s' => some (some (Stmt.returnS retTok none), s')

/-- `Parser.parseExpressionStatement`. -/
def parseExpressionStatementF : Nat → ParserS → Option (Option Stmt × ParserS)
  | 0, _ => none
  | fuel + 1, s =>
    let tk := s.curToken
    match parseExpressionF fuel LOWEST s with
    | none => none
    | some (e, s') =>
      let s'' := if s'.peekToken.type = tok.SEMICOLON then pnext s' else s'
      some (some (Stmt.exprStmt tk e), s'')

/-- `Parser.parseExpression`: prefixed dispatch (error and absent result
when no function is registered), then the precedence-climbing loop. -/
def parseExpressionF : Nat → Nat → ParserS → Option (Option Expr × ParserS)
  | 0, _, _ => none
  | fuel + 1, precedence, s =>
    if hasPrefixFn s.curToken.type then
      match applyPrefixF fuel s with
      | none => none
      | some (left, s') => climbF fuel precedence left s'
    else some (none, addError s (noPrefixFnMsg s.curToken.type))

/-- the registered prefixParseFns, dispatched on the current token kind. -/
def applyPrefixF : Nat → ParserS → Option (Option Expr × ParserS)
  | 0, _ => none
  | fuel + 1, s =>
    if s.curToken.type = tok.IDENT then some (parseIdentifier s)
    else if s.curToken.type = tok.INT then some (parseIntegerLiteral s)
    else if s.curToken.type = tok.BANG || s.curToken.type = tok.MINUS then
      parsePrefixExpressionF fuel s
    else if s.curToken.type = tok.TRUE || s.curToken.type = tok.FALSE then
      some (some (parseBoolean s), s)
    else if s.curToken.type = tok.LPAREN then parseGroupedExpressionF fuel s
    else if s.curToken.type = tok.IF then parseIfExpressionF fuel s
    else if s.curToken.type = tok.FUNCTION then parseFunctionLiteralF fuel s
    else some (none, s)

/-- the `for !p.peekTokenIs(SEMICOLON) && precedence < p.peekPrecedence()`
loop of `parseExpression`; an unregistered infixParseFns entry returns the
left expression. -/
def climbF : Nat → Nat → Option Expr → ParserS → Option (Option Expr × ParserS)
  | 0, _, _, _ => none
  | fuel + 1, precedence, left, s =>
    if s.peekToken.type ≠ tok.SEMICOLON ∧ precedence < peekPrecedence s then
      if hasInfixFn s.peekToken.type then
        let s' := pnext s
        match applyInfixF fuel left s' with
        | none => none
        | some (left', s'') => climbF fuel precedence left' s''
      else some (left, s)
    else some (left, s)

/-- the registered infixParseFns (`LPAREN` is the call parser, the rest the
binary-operator parser). -/
def applyInfixF : Nat → Option Expr → ParserS → Option (Option Expr × ParserS)
  | 0, _, _ => none
  | fuel + 1, left, s =>
    if s.curToken.type = tok.LPAREN then parseCallExpressionF fuel left s
    else parseInfixExpressionF fuel left s

/-- `Parser.parsePrefixExpression`: record the operator, advance, parse the
operand at `PREFIX` precedence. -/
def parsePrefixExpressionF : Nat → ParserS → Option (Option Expr × ParserS)
  | 0, _ => none
  | fuel + 1, s =>
    let tk := s.curToken
    match parseExpressionF fuel PREFIX (pnext s) with
    | none => none
    | some (right, s') => some (some (Expr.prefixE tk tk.literal right), s')

/-- `Parser.parseInfixExpression`: remember the current precedence, advance,
parse the right operand at that precedence. -/
def parseInfixExpressionF : Nat → Option Expr → ParserS → Option (Option Expr × ParserS)
  | 0, _, _ => none
  | fuel + 1, left, s =>
    let tk := s.curToken
    let precedence := curPrecedence s
    match parseExpressionF fuel precedence (pnext s) with
    | none => none
    | some (right, s') => some (some (Expr.infixE tk left tk.literal right), s')

/-- `Parser.parseGroupedExpression`. -/
def parseGroupedExpressionF : Nat → ParserS → Option (Option Expr × ParserS)
  | 0, _ => none
  | fuel + 1, s =>
    match parseExpressionF fuel LOWEST (pnext s) with
    | none => none
    | some (e, s') =>
      match expectPeek s' tok.RPAREN with
      | (false, s'') => some (none, s'')
      | (true, s'') => some (e, s'')

/-- `Parser.parseIfExpression`. -/
def parseIfExpressionF : Nat → ParserS → Option (Option Expr × ParserS)
  | 0, _ => none
  | fuel + 1, s =>
    let tk := s.curToken
    match expectPeek s tok.LPAREN with
    | (false, s1) => some (none, s1)
    | (true, s1) =>
      match parseExpressionF fuel LOWEST (pnext s1) with
      | none => none
      | some (cond, s2) =>
        match expectPeek s2 tok.RPAREN with
        | (false, s3) => some (none, s3)
        | (true, s3) =>
          match expectPeek s3 tok.LBRACE with
          | (false, s4) => some (none, s4)
          | (true, s4) =>
            match parseBlockStatementF fuel s4 with
            | none => none
            | some (cons, s5) =>
              if s5.peekToken.type = tok.ELSE then
                let s6 := pnext s5
                match expectPeek s6 tok.LBRACE with
                | (false, s7) => some (none, s7)
                | (true, s7) =>
                  match parseBlockStatementF fuel s7 with
                  | none => none
                  | some (alt, s8) =>
                    some (some (Expr.ifE tk cond cons (some alt)), s8)
              else some (some (Expr.ifE tk cond cons none), s5)

/-- `Parser.parseBlockStatement`: advance past `{`, then collect statements
until `}` or `EOF`. -/
def parseBlockStatementF : Nat → ParserS → Option (Block × ParserS)
  | 0, _ => none
  | fuel + 1, s => blockLoopF fuel s.curToken [] (pnext s)

def blockLoopF : Nat → Token → List (Option Stmt) → ParserS →
    Option (Block × ParserS)
  | 0, _, _, _ => none
  | fuel + 1, btok, acc, s =>
    if s.curToken.type ≠ tok.RBRACE ∧ s.curToken.type ≠ tok.EOF then
      match parseStatementF fuel s with
      | none => none
      | some (st?, s') => blockLoopF fuel btok (acc ++ [st?]) (pnext s')
    else some (Block.mk btok acc, s)

/-- `Parser.parseFunctionLiteral`. -/
def parseFunctionLiteralF : Nat → ParserS → Option (Option Expr × ParserS)
  | 0, _ => none
  | fuel + 1, s =>
    let tk := s.curToken
    match expectPeek s tok.LPAREN with
    | (false, s1) => some (none, s1)
    | (true, s1) =>
      match parseFunctionParametersF fuel s1 with
      | none => none
      | some (params, s2) =>
        match expectPeek s2 tok.LBRACE with
        | (false, s3) => some (none, s3)
        | (true, s3) =>
          match parseBlockStatementF fuel s3 with
          | none => none
          | some (body, s4) => some (some (Expr.funcLit tk params body), s4)

/-- `Parser.parseFunctionParameters` (a failed closing-paren expectation
returns Go's nil slice, embedded as `[]`). -/
def parseFunctionParametersF : Nat → ParserS → Option (List Ident × ParserS)
  | 0, _ => none
  | fuel + 1, s =>
    if s.peekToken.type = tok.RPAREN then some ([], pnext s)
    else
      let s1 := pnext s
      let first := Ident.mk s1.curToken s1.curToken.literal
      match paramsLoopF fuel [first] s1 with
      | none => none
      | some (ids, s2) =>
        match expectPeek s2 tok.RPAREN with
        | (false, s3) => some ([], s3)
        | (true, s3) => some (ids, s3)

def paramsLoopF : Nat → List Ident → ParserS → Option (List Ident × ParserS)
  | 0, _, _ => none
  | fuel + 1, acc, s =>
    if s.peekToken.type = tok.COMMA then
      let s' := pnext (pnext s)
      paramsLoopF fuel (acc ++ [Ident.mk s'.curToken s'.curToken.literal]) s'
    else some (acc, s)

/-- `Parser.parseCallExpression`. -/
def parseCallExpressionF : Nat → Option Expr → ParserS → Option (Option Expr × ParserS)
  | 0, _, _ => none
  | fuel + 1, left, s =>
    let tk := s.curToken
    match parseCallArgumentsF fuel s with
    | none => none
    | some (args, s') => some (some (Expr.callE tk left args), s')

/-- `Parser.parseCallArguments` (a failed closing-paren expectation returns
Go's nil slice, embedded as `[]`). -/
def parseCallArgumentsF : Nat → ParserS → Option (List (Option Expr) × ParserS)
  | 0, _ => none
  | fuel + 1, s =>
    if s.peekToken.type = tok.RPAREN then some ([], pnext s)
    else
      match parseExpressionF fuel LOWEST (pnext s) with
      | none => none
      | some (a, s1) =>
        match argsLoopF fuel [a] s1 with
        | none => none
        | some (args, s2) =>
          match expectPeek s2 tok.RPAREN with
          | (false, s3) => some ([], s3)
          | (true, s3) => some (args, s3)

def argsLoopF : Nat → List (Option Expr) → ParserS → Option (List (Option Expr) × ParserS)
  | 0, _, _ => none
  | fuel + 1, acc, s =>
    if s.peekToken.type = tok.COMMA then
      match parseExpressionF fuel LOWEST (pnext (pnext s)) with
      | none => none
      | some (a, s') => argsLoopF fuel (acc ++ [a]) s'
    else some (acc, s)

end

/-- `parser.New`: fresh parser over a lexer (zero-value token window), then
two `nextToken` calls to fill the window. -/
def parserNew (l : Lexer) : ParserS :=
  pnext (pnext (ParserS.mk l [] (Token.mk "" []) (Token.mk "" [])))

/-- `Parser.ParseProgram` with fuel. -/
def parseProgramF (fuel : Nat) (s : ParserS) : Option (Program × ParserS) :=
  (parseProgramLoop fuel [] s).map (fun r => (Program.mk r.1, r.2))

/-- the lexer–parser pipeline on a source string. -/
def parseMain (input : List Char) (fuel : Nat) : Option (Program × ParserS) :=
  parseProgramF fuel (parserNew (Lexer.new input))

example :
    (parseMain "-a * b".data 99).map
      (fun r => (renderProgram r.1, r.2.errors)) =
    some ("((-a) * b)".data, []) := by decide

example :
    (parseMain "let x 5;".data 99).map
      (fun r => (r.2.errors, r.1.statements.length)) =
    some (["expected next token to be =, got INT instead"], 2) := by decide

/-! ## Value model: `src/object/object.go`.
The `Object` interface and its variants. `Builtin` wraps a Go function
value; nothing in the sources constructs or consumes one, so its payload
is omitted here. `Function` carries parameters, body and the captured
environment's store. The evaluator's `TRUE`/`FALSE`/`NULL` singletons are
compared by pointer identity in Go; in this embedding structural equality
coincides with identity, because every boolean or null value the
evaluator produces IS one of the singletons (`nativeBooleanObject` and
the `NULL` constant are the only producers). -/

inductive Obj where
  | integer : Int → Obj
  | boolean : Bool → Obj
  | nullO : Obj
  | returnValue : Obj → Obj
  | error : String → Obj
  | function : List Ident → Block → List (String × Obj) → Obj
  | stringO : String → Obj
  | builtin : Obj
  deriving Repr

/-- the `ObjectType` constants. -/
def INTEGER_OBJ : String := "INTEGER"
def BOOLEAN_OBJ : String := "BOOLEAN"
def NULL_OBJ : String := "NULL"
def RETURN_VALUE_OBJ : String := "RETURN_VALUE"
def ERROR_OBJ : String := "ERROR"
def FUNCTION_OBJ : String := "FUNCTION"
def STRING_OBJ : String := "STRING"
def BUILTIN_OBJ : String := "BUILTIN"

/-- the `Type()` methods of the object variants. -/
def objType : Obj → String
  | .integer _ => INTEGER_OBJ
  | .boolean _ => BOOLEAN_OBJ
  | .nullO => NULL_OBJ
  | .returnValue _ => RETURN_VALUE_OBJ
  | .error _ => ERROR_OBJ
  | .function _ _ _ => FUNCTION_OBJ
  | .stringO _ => STRING_OBJ
  | .builtin => BUILTIN_OBJ

/-- the `NULL` singleton of `src/evaluator/evaluator.go`. -/
def NULL : Obj := Obj.nullO

/-- the `TRUE` singleton. -/
def TRUE : Obj := Obj.boolean true

/-- the `FALSE` singleton. -/
def FALSE : Obj := Obj.boolean false

/-! ## Environment: `src/object/environment.go`.
The struct has exactly one field, `store map[string]Object` — there is no
outer/parent field in this file. The Go map is embedded as an association
list without duplicate keys (`storeUpdate` replaces in place or appends). -/

/-- association-list lookup, the read of `e.store[name]`. -/
def storeLookup : List (String × Obj) → String → Option Obj
  | [], _ => none
  | (k, w) :: rest, n => if k = n then some w else storeLookup rest n

/-- association-list update, the write of `e.store[name] = val`. -/
def storeUpdate : List (String × Obj) → String → Obj → List (String × Obj)
  | [], n, v => [(n, v)]
  | (k, w) :: rest, n, v =>
      if k = n then (n, v) :: rest else (k, w) :: storeUpdate rest n v

/-- the `Environment` struct: a name-to-value map and nothing else. -/
structure Environment where
  store : List (String × Obj)
  deriving Repr

/-- `object.NewEnvironment`. -/
def NewEnvironment : Environment := Environment.mk []

/-- `Environment.Get`: the two-valued map read (`nil, false` on a miss). -/
def envGet (e : Environment) (name : String) : Option Obj × Bool :=
  match storeLookup e.store name with
  | some v => (some v, true)
  | none => (none, false)

/-- `Environment.Set`: bind in the store and return the value. -/
def envSet (e : Environment) (name : String) (val : Obj) : Environment × Obj :=
  (Environment.mk (storeUpdate e.store name val), val)

/-- Modelled from the spec: the environment the specification describes —
"a mapping from identifier name to Value, plus an optional reference to a
parent environment; lookup walks the parent chain". Used only to compare
the claimed lookup behaviour with the source's `Environment.Get`. -/
inductive EnvironmentSpec where
  | mk : List (String × Obj) → Option EnvironmentSpec → EnvironmentSpec

/-- Modelled from the spec: lookup that misses in the innermost frame
continues in the parent chain. -/
def specGet : EnvironmentSpec → String → Option Obj × Bool
  | .mk st none, n =>
      (match storeLookup st n with
        | some v => (some v, true)
        | none => (none, false))
  | .mk st (some o), n =>
      (match storeLookup st n with
        | some v => (some v, true)
        | none => specGet o n)

/-! ## Evaluator: `src/evaluator/evaluator.go`.
`Eval` dispatches on the dynamic node type; the variants it handles are
`*ast.Program`, `*ast.ExpressionStatement`, `*ast.IntegerLiteral`,
`*ast.Boolean`, `*ast.PrefixExpression` and `*ast.InfixExpression`; every
other node (and a nil node) falls past the switch and yields Go's `nil`.
A result of type `EvalRes`:
* `none`            — the Go code panics (unchecked type assertion,
                      nil-interface method call, division by zero);
* `some none`       — the Go code returns the nil interface value;
* `some (some o)`   — the Go code returns the object `o`. -/

/-- a Go `object.Object` interface value, which may be nil. -/
abbrev GoVal := Option Obj

/-- result of running the evaluator: `none` is a panic, `some g` a
returned (possibly nil) interface value. -/
abbrev EvalRes := Option GoVal

/-- an `ast.Node` handed to `Eval`: a program, a statement or an
expression (a program's statement slice may contain typed-nil entries,
see `Program`). -/
inductive Node where
  | prog : List (Option Stmt) → Node
  | stmt : Stmt → Node
  | expr : Expr → Node

/-- `nativeBooleanObject`: the boolean singletons. -/
def nativeBooleanObject (input : Bool) : Obj :=
  if input then TRUE else FALSE

/-- `evalBangOperatorExpression`: the switch compares the operand against
the `TRUE`/`FALSE`/`NULL` singletons and defaults to `FALSE`. -/
def evalBangOperatorExpression (right : GoVal) : Obj :=
  match right with
  | some (.boolean true) => FALSE
  | some (.boolean false) => TRUE
  | some .nullO => TRUE
  | _ => FALSE

/-- two's-complement wrap of Go `int64` arithmetic. -/
def wrap64 (z : Int) : Int :=
  (z + 2 ^ 63).emod (2 ^ 64) - 2 ^ 63

/-- `evalMinusPrefixOperatorExpression`: `NULL` unless the operand is an
integer (a nil operand panics on the `Type()` call). -/
def evalMinusPrefixOperatorExpression (right : GoVal) : Option Obj :=
  match right with
  | some (.integer v) => some (Obj.integer (wrap64 (-v)))
  | some _ => some NULL
  | none => none

/-- `evalPlusPrefixOperatorExpression`. -/
def evalPlusPrefixOperatorExpression (right : GoVal) : Option Obj :=
  match right with
  | some (.integer v) => some (Obj.integer v)
  | some _ => some NULL
  | none => none

/-- `evalPrefixExpression`: dispatch on the operator string, `NULL` by
default. -/
def evalPrefixExpression (operator : List Char) (right : GoVal) : Option Obj :=
  if operator = "!".data then some (evalBangOperatorExpression right)
  else if operator = "-".data then evalMinusPrefixOperatorExpression right
  else if operator = "+".data then evalPlusPrefixOperatorExpression right
  else some NULL

/-- `evalIntegerInfixExpression`: UNCHECKED type assertions
`left.(*object.Integer)` / `right.(*object.Integer)` — any non-integer
(or nil) operand is a panic (`none`). Division by zero panics too. -/
def evalIntegerInfixExpression (operator : List Char) (left right : GoVal) :
    Option Obj :=
  match left, right with
  | some (.integer a), some (.integer b) =>
      if operator = "+".data then some (Obj.integer (wrap64 (a + b)))
      else if operator = "-".data then some (Obj.integer (wrap64 (a - b)))
      else if operator = "*".data then some (Obj.integer (wrap64 (a * b)))
      else if operator = "/".data then
        (if b = 0 then none else some (Obj.integer (wrap64 (Int.tdiv a b))))
      else some NULL
  | _, _ => none

/-- `evalInfixExpression`: the type-checked dispatcher that exists in the
source but is never called by `Eval` (a nil operand panics on `Type()`). -/
def evalInfixExpression (operator : List Char) (left right : GoVal) :
    Option Obj :=
  match left, right with
  | some l, some r =>
      if objType l = INTEGER_OBJ ∧ objType r = INTEGER_OBJ then
        evalIntegerInfixExpression operator (some l) (some r)
      else some NULL
  | _, _ => none

mutual

/-- `Eval` on expression nodes. The source's `*ast.InfixExpression` case
calls `evalIntegerInfixExpression` DIRECTLY (not `evalInfixExpression`). -/
def evalE : Expr → EvalRes
  | .intLit _ v => some (some (Obj.integer v))
  | .boolLit _ b => some (some (nativeBooleanObject b))
  | .prefixE _ op r =>
      (match evalOpt r with
        | none => none
        | some right => (evalPrefixExpression op right).map some)
  | .infixE _ l op r =>
      (match evalOpt l with
        | none => none
        | some left =>
          match evalOpt r with
          | none => none
          | some right => (evalIntegerInfixExpression op left right).map some)
  | .identE _ => some none
  | .ifE _ _ _ _ => some none
  | .funcLit _ _ _ => some none
  | .callE _ _ _ => some none

/-- `Eval` on a possibly-nil expression (`Eval(nil)` matches no switch case
and returns nil). -/
def evalOpt : Option Expr → EvalRes
  | some e => evalE e
  | none => some none

/-- `Eval` on statement nodes: only `*ast.ExpressionStatement` is handled. -/
def evalS : Stmt → EvalRes
  | .exprStmt _ e => evalOpt e
  | .letS _ _ _ => some none
  | .returnS _ _ => some none
  | .blockS _ => some none

/-- `Eval` on a possibly-nil statement pointer in a program or block: the
only nil-pointer statements the parser produces are `*ast.LetStatement` /
`*ast.ReturnStatement` typed nils, which `Eval`'s switch does not handle,
so they fall through to `return nil` like their non-nil counterparts. -/
def evalSOpt : Option Stmt → EvalRes
  | some st => evalS st
  | none => some none

/-- `evalStatements`: evaluate in order, keep the last result (`nil` for an
empty list); a panic aborts everything. -/
def evalStatements : List (Option Stmt) → GoVal → EvalRes
  | [], acc => some acc
  | st :: rest, _ =>
      (match evalSOpt st with
        | none => none
        | some v => evalStatements rest v)

end

/-- `Eval`: dispatch on the dynamic node type. -/
def Eval : Node → EvalRes
  | .prog sts => evalStatements sts none
  | .stmt s => evalS s
  | .expr e => evalE e

/-! ## Lexer metatheory (for the totality/concatenation property of the
root lexer). A reachable lexer state is determined by its input and
position: `mkAt` is that canonical form. -/

/-- the canonical lexer state over `inp` at position `p`. -/
def mkAt (inp : List Char) (p : Nat) : Lexer :=
  Lexer.mk inp p (p + 1) (charAt inp p)

theorem mkAt_ch (inp : List Char) (p : Nat) : (mkAt inp p).ch = charAt inp p := rfl

theorem charAt_of_ge (inp : List Char) (p : Nat) (h : inp.length ≤ p) :
    charAt inp p = nul := by
  simp [charAt, List.getD_eq_getElem?_getD, List.getElem?_eq_none h]

theorem charAt_of_lt (inp : List Char) (p : Nat) (h : p < inp.length) :
    charAt inp p = inp[p] := by
  simp [charAt, List.getD_eq_getElem?_getD, List.getElem?_eq_getElem h]

theorem charAt_mem (inp : List Char) (p : Nat) (h : p < inp.length) :
    charAt inp p ∈ inp := by
  rw [charAt_of_lt inp p h]
  exact List.getElem_mem h

theorem lt_of_charAt_ne_nul (inp : List Char) (p : Nat) (h : charAt inp p ≠ nul) :
    p < inp.length := by
  by_contra hge
  exact h (charAt_of_ge inp p (by omega))

theorem charAt_ne_nul_of_lt (inp : List Char) (p : Nat) (hnul : nul ∉ inp)
    (h : p < inp.length) : charAt inp p ≠ nul :=
  fun he => hnul (he ▸ charAt_mem inp p h)

theorem readChar_mkAt (inp : List Char) (p : Nat) :
    readChar (mkAt inp p) = mkAt inp (p + 1) := by
  simp only [readChar, mkAt]
  by_cases h : inp.length ≤ p + 1
  · rw [if_pos h, charAt_of_ge inp (p + 1) h]
  · rw [if_neg h]

theorem takeWhile_eq_take_length {α : Type} (P : α → Bool) :
    ∀ xs : List α, xs.takeWhile P = xs.take (xs.takeWhile P).length := by
  intro xs
  induction xs with
  | nil => rfl
  | cons a l ih =>
    by_cases h : P a
    · rw [List.takeWhile_cons_of_pos h]
      simp only [List.length_cons, List.take_succ_cons]
      rw [← ih]
    · rw [List.takeWhile_cons_of_neg h]
      rfl

theorem dropWhile_eq_drop_length {α : Type} (P : α → Bool) :
    ∀ xs : List α, xs.dropWhile P = xs.drop (xs.takeWhile P).length := by
  intro xs
  induction xs with
  | nil => rfl
  | cons a l ih =>
    by_cases h : P a
    · rw [List.dropWhile_cons_of_pos h, List.takeWhile_cons_of_pos h]
      simpa using ih
    · rw [List.dropWhile_cons_of_neg h, List.takeWhile_cons_of_neg h]
      rfl

theorem length_takeWhile_le' {α : Type} (P : α → Bool) (xs : List α) :
    (xs.takeWhile P).length ≤ xs.length := by
  induction xs with
  | nil => simp
  | cons a l ih =>
    by_cases h : P a
    · rw [List.takeWhile_cons_of_pos h]
      simpa using ih
    · rw [List.takeWhile_cons_of_neg h]
      simp

/-- the length of the maximal `P`-run of `inp` starting at `p`. -/
def runLen (P : Char → Bool) (inp : List Char) (p : Nat) : Nat :=
  ((inp.drop p).takeWhile P).length

theorem runLen_le (P : Char → Bool) (inp : List Char) (p : Nat) :
    runLen P inp p ≤ inp.length - p := by
  have h := length_takeWhile_le' P (inp.drop p)
  simpa [runLen, List.length_drop] using h

theorem drop_cons_charAt (inp : List Char) (p : Nat) (h : p < inp.length) :
    inp.drop p = charAt inp p :: inp.drop (p + 1) := by
  rw [charAt_of_lt inp p h]
  exact List.drop_eq_getElem_cons h

theorem runLen_zero (P : Char → Bool) (inp : List Char) (p : Nat)
    (h : P (charAt inp p) = false) : runLen P inp p = 0 := by
  by_cases hp : p < inp.length
  · rw [runLen, drop_cons_charAt inp p hp, List.takeWhile_cons_of_neg (by simp [h])]
    rfl
  · rw [runLen, List.drop_eq_nil_of_le (by omega)]
    rfl

theorem runLen_succ (P : Char → Bool) (inp : List Char) (p : Nat)
    (hp : p < inp.length) (h : P (charAt inp p) = true) :
    runLen P inp p = runLen P inp (p + 1) + 1 := by
  rw [runLen, drop_cons_charAt inp p hp, List.takeWhile_cons_of_pos h]
  simp [runLen]

theorem dropWhile_head_false {α : Type} (P : α → Bool) :
    ∀ (xs : List α) (y : α) (ys : List α), xs.dropWhile P = y :: ys → P y = false := by
  intro xs
  induction xs with
  | nil => intro y ys h; simp at h
  | cons a l ih =>
    intro y ys h
    by_cases hp : P a
    · rw [List.dropWhile_cons_of_pos hp] at h
      exact ih y ys h
    · rw [List.dropWhile_cons_of_neg hp] at h
      injection h with h1 h2
      subst h1
      cases hpa : P a
      · rfl
      · exact absurd hpa hp

theorem runLen_stop (P : Char → Bool) (hnul : P nul = false) (inp : List Char)
    (p : Nat) : P (charAt inp (p + runLen P inp p)) = false := by
  by_cases hq : p + runLen P inp p < inp.length
  · have hd : (inp.drop p).dropWhile P =
        charAt inp (p + runLen P inp p) :: inp.drop (p + runLen P inp p + 1) := by
      rw [dropWhile_eq_drop_length, List.drop_drop, ← runLen]
      exact drop_cons_charAt inp _ hq
    exact dropWhile_head_false P _ _ _ hd
  · rw [charAt_of_ge inp _ (by omega)]
    exact hnul

theorem skipWhitespaceF_mkAt (inp : List Char) :
    ∀ (f p : Nat), runLen isWS inp p ≤ f →
      skipWhitespaceF f (mkAt inp p) = mkAt inp (p + runLen isWS inp p) := by
  intro f
  induction f with
  | zero =>
    intro p h
    have h0 : runLen isWS inp p = 0 := by omega
    simp [skipWhitespaceF, h0]
  | succ f ih =>
    intro p h
    by_cases hw : isWS (charAt inp p) = true
    · have hp : p < inp.length := by
        apply lt_of_charAt_ne_nul
        intro he
        rw [he] at hw
        exact absurd hw (by decide)
      have hr := runLen_succ isWS inp p hp hw
      show (if isWS (mkAt inp p).ch then skipWhitespaceF f (readChar (mkAt inp p))
        else mkAt inp p) = _
      rw [mkAt_ch, hw, if_pos rfl, readChar_mkAt, ih (p + 1) (by omega)]
      rw [hr]
      congr 1
      omega
    · have hw' : isWS (charAt inp p) = false := by
        cases hww : isWS (charAt inp p)
        · rfl
        · exact absurd hww hw
      rw [runLen_zero isWS inp p hw']
      show (if isWS (mkAt inp p).ch then skipWhitespaceF f (readChar (mkAt inp p))
        else mkAt inp p) = _
      rw [mkAt_ch, hw']
      simp

theorem readLettersF_mkAt (inp : List Char) :
    ∀ (f p : Nat), runLen isLetter inp p ≤ f →
      readLettersF f (mkAt inp p) = mkAt inp (p + runLen isLetter inp p) := by
  intro f
  induction f with
  | zero =>
    intro p h
    have h0 : runLen isLetter inp p = 0 := by omega
    simp [readLettersF, h0]
  | succ f ih =>
    intro p h
    by_cases hw : isLetter (charAt inp p) = true
    · have hp : p < inp.length := by
        apply lt_of_charAt_ne_nul
        intro he
        rw [he] at hw
        exact absurd hw (by decide)
      have hr := runLen_succ isLetter inp p hp hw
      show (if isLetter (mkAt inp p).ch then readLettersF f (readChar (mkAt inp p))
        else mkAt inp p) = _
      rw [mkAt_ch, hw, if_pos rfl, readChar_mkAt, ih (p + 1) (by omega)]
      rw [hr]
      congr 1
      omega
    · have hw' : isLetter (charAt inp p) = false := by
        cases hww : isLetter (charAt inp p)
        · rfl
        · exact absurd hww hw
      rw [runLen_zero isLetter inp p hw']
      show (if isLetter (mkAt inp p).ch then readLettersF f (readChar (mkAt inp p))
        else mkAt inp p) = _
      rw [mkAt_ch, hw']
      simp

theorem readDigitsF_mkAt (inp : List Char) :
    ∀ (f p : Nat), runLen isDigit inp p ≤ f →
      readDigitsF f (mkAt inp p) = mkAt inp (p + runLen isDigit inp p) := by
  intro f
  induction f with
  | zero =>
    intro p h
    have h0 : runLen isDigit inp p = 0 := by omega
    simp [readDigitsF, h0]
  | succ f ih =>
    intro p h
    by_cases hw : isDigit (charAt inp p) = true
    · have hp : p < inp.length := by
        apply lt_of_charAt_ne_nul
        intro he
        rw [he] at hw
        exact absurd hw (by decide)
      have hr := runLen_succ isDigit inp p hp hw
      show (if isDigit (mkAt inp p).ch then readDigitsF f (readChar (mkAt inp p))
        else mkAt inp p) = _
      rw [mkAt_ch, hw, if_pos rfl, readChar_mkAt, ih (p + 1) (by omega)]
      rw [hr]
      congr 1
      omega
    · have hw' : isDigit (charAt inp p) = false := by
        cases hww : isDigit (charAt inp p)
        · rfl
        · exact absurd hww hw
      rw [runLen_zero isDigit inp p hw']
      show (if isDigit (mkAt inp p).ch then readDigitsF f (readChar (mkAt inp p))
        else mkAt inp p) = _
      rw [mkAt_ch, hw']
      simp

theorem readIdentifier_mkAt (inp : List Char) (p : Nat) :
    readIdentifier (mkAt inp p) =
      ((inp.drop p).takeWhile isLetter, mkAt inp (p + runLen isLetter inp p)) := by
  have hfuel : runLen isLetter inp p ≤ inp.length + 1 := by
    have := runLen_le isLetter inp p
    omega
  show (slice (mkAt inp p).input (mkAt inp p).position
      (readLettersF ((mkAt inp p).input.length + 1) (mkAt inp p)).position,
      readLettersF ((mkAt inp p).input.length + 1) (mkAt inp p)) = _
  rw [show (mkAt inp p).input = inp from rfl, show (mkAt inp p).position = p from rfl,
    readLettersF_mkAt inp (inp.length + 1) p hfuel]
  congr 1
  show (inp.drop p).take (p + runLen isLetter inp p - p) = _
  rw [Nat.add_sub_cancel_left]
  exact (takeWhile_eq_take_length isLetter (inp.drop p)).symm

theorem readNumber_mkAt (inp : List Char) (p : Nat) :
    readNumber (mkAt inp p) =
      ((inp.drop p).takeWhile isDigit, mkAt inp (p + runLen isDigit inp p)) := by
  have hfuel : runLen isDigit inp p ≤ inp.length + 1 := by
    have := runLen_le isDigit inp p
    omega
  show (slice (mkAt inp p).input (mkAt inp p).position
      (readDigitsF ((mkAt inp p).input.length + 1) (mkAt inp p)).position,
      readDigitsF ((mkAt inp p).input.length + 1) (mkAt inp p)) = _
  rw [show (mkAt inp p).input = inp from rfl, show (mkAt inp p).position = p from rfl,
    readDigitsF_mkAt inp (inp.length + 1) p hfuel]
  congr 1
  show (inp.drop p).take (p + runLen isDigit inp p - p) = _
  rw [Nat.add_sub_cancel_left]
  exact (takeWhile_eq_take_length isDigit (inp.drop p)).symm

theorem mem_takeWhile_sat {α : Type} (P : α → Bool) :
    ∀ (xs : List α) (c : α), c ∈ xs.takeWhile P → P c = true := by
  intro xs
  induction xs with
  | nil => intro c hc; simp at hc
  | cons a l ih =>
    intro c hc
    by_cases h : P a
    · rw [List.takeWhile_cons_of_pos h] at hc
      rcases List.mem_cons.mp hc with rfl | hc'
      · exact h
      · exact ih c hc'
    · rw [List.takeWhile_cons_of_neg h] at hc
      simp at hc

theorem isWS_false_of_isLetter (c : Char) (h : isLetter c = true) :
    isWS c = false := by
  cases hw : isWS c
  · rfl
  · simp only [isWS, Bool.or_eq_true, decide_eq_true_eq] at hw
    rcases hw with ((rfl | rfl) | rfl) | rfl <;> exact absurd h (by decide)

theorem isWS_false_of_isDigit (c : Char) (h : isDigit c = true) :
    isWS c = false := by
  cases hw : isWS c
  · rfl
  · simp only [isWS, Bool.or_eq_true, decide_eq_true_eq] at hw
    rcases hw with ((rfl | rfl) | rfl) | rfl <;> exact absurd h (by decide)

theorem LookupIdentRoot_ne_EOF (lit : List Char) :
    tok.LookupIdentRoot lit ≠ tok.EOF := by
  unfold tok.LookupIdentRoot
  split_ifs <;> decide

/-- what a successful (non-EOF) lexing step guarantees at position `q`:
a nonempty whitespace-free literal that is exactly the consumed slice of
the input, the lexer moved just past it, still within bounds. -/
def TokSpec (inp : List Char) (q : Nat) (r : Token × Lexer) : Prop :=
  r.1.literal ≠ [] ∧ (∀ c ∈ r.1.literal, isWS c = false) ∧ r.1.type ≠ tok.EOF ∧
  r.2 = mkAt inp (q + r.1.literal.length) ∧
  slice inp q (q + r.1.literal.length) = r.1.literal ∧
  q + r.1.literal.length ≤ inp.length

theorem slice_one (inp : List Char) (q : Nat) (h : q < inp.length) :
    slice inp q (q + 1) = [charAt inp q] := by
  show (inp.drop q).take (q + 1 - q) = _
  rw [Nat.add_sub_cancel_left, drop_cons_charAt inp q h]
  rfl

theorem tokSpec_single (inp : List Char) (q : Nat) (ty : String)
    (hty : ty ≠ tok.EOF) (hin : q < inp.length)
    (hws : isWS (charAt inp q) = false) :
    TokSpec inp q (newToken ty (charAt inp q), readChar (mkAt inp q)) := by
  refine ⟨by simp [newToken], ?_, hty, ?_, ?_, ?_⟩
  · intro c hc
    simp only [newToken, List.mem_singleton] at hc
    rw [hc]
    exact hws
  · show readChar (mkAt inp q) = mkAt inp (q + 1)
    exact readChar_mkAt inp q
  · show slice inp q (q + 1) = _
    rw [slice_one inp q hin]
    rfl
  · show q + 1 ≤ inp.length
    omega

theorem tokSpec_ident (inp : List Char) (q : Nat) (hin : q < inp.length)
    (h : isLetter (charAt inp q) = true) :
    TokSpec inp q
      (Token.mk (tok.LookupIdentRoot ((inp.drop q).takeWhile isLetter))
        ((inp.drop q).takeWhile isLetter),
       mkAt inp (q + runLen isLetter inp q)) := by
  have hlit : (inp.drop q).takeWhile isLetter =
      charAt inp q :: (inp.drop (q + 1)).takeWhile isLetter := by
    rw [drop_cons_charAt inp q hin, List.takeWhile_cons_of_pos h]
  have hlen : ((inp.drop q).takeWhile isLetter).length = runLen isLetter inp q := rfl
  refine ⟨by rw [hlit]; simp, ?_, LookupIdentRoot_ne_EOF _, ?_, ?_, ?_⟩
  · intro c hc
    exact isWS_false_of_isLetter c (mem_takeWhile_sat isLetter (inp.drop q) c hc)
  · show mkAt inp (q + runLen isLetter inp q) = mkAt inp (q + _)
    rw [hlen]
  · show slice inp q (q + ((inp.drop q).takeWhile isLetter).length) = _
    rw [hlen]
    show (inp.drop q).take (q + runLen isLetter inp q - q) = _
    rw [Nat.add_sub_cancel_left]
    exact (takeWhile_eq_take_length isLetter (inp.drop q)).symm
  · show q + ((inp.drop q).takeWhile isLetter).length ≤ inp.length
    rw [hlen]
    have := runLen_le isLetter inp q
    omega

theorem tokSpec_digits (inp : List Char) (q : Nat) (hin : q < inp.length)
    (h : isDigit (charAt inp q) = true) :
    TokSpec inp q
      (Token.mk tok.INT ((inp.drop q).takeWhile isDigit),
       mkAt inp (q + runLen isDigit inp q)) := by
  have hlit : (inp.drop q).takeWhile isDigit =
      charAt inp q :: (inp.drop (q + 1)).takeWhile isDigit := by
    rw [drop_cons_charAt inp q hin, List.takeWhile_cons_of_pos h]
  have hlen : ((inp.drop q).takeWhile isDigit).length = runLen isDigit inp q := rfl
  refine ⟨by rw [hlit]; simp, ?_,
    by intro hh; exact absurd (show tok.INT = tok.EOF from hh) (by decide), ?_, ?_, ?_⟩
  · intro c hc
    exact isWS_false_of_isDigit c (mem_takeWhile_sat isDigit (inp.drop q) c hc)
  · show mkAt inp (q + runLen isDigit inp q) = mkAt inp (q + _)
    rw [hlen]
  · show slice inp q (q + ((inp.drop q).takeWhile isDigit).length) = _
    rw [hlen]
    show (inp.drop q).take (q + runLen isDigit inp q - q) = _
    rw [Nat.add_sub_cancel_left]
    exact (takeWhile_eq_take_length isDigit (inp.drop q)).symm
  · show q + ((inp.drop q).takeWhile isDigit).length ≤ inp.length
    rw [hlen]
    have := runLen_le isDigit inp q
    omega

/-- the case analysis of the root lexer's dispatch: at a whitespace-free
position it either sees the sentinel (end of a NUL-free input) and emits
`EOF`, or consumes a nonempty whitespace-free literal. -/
theorem rootNextTokenD_spec (inp : List Char) (q : Nat) (_hnul : nul ∉ inp)
    (hws : isWS (charAt inp q) = false) :
    (charAt inp q = nul ∧
      RootLexer.nextTokenD (mkAt inp q) = (Token.mk tok.EOF [], readChar (mkAt inp q)))
    ∨ TokSpec inp q (RootLexer.nextTokenD (mkAt inp q)) := by
  by_cases h0 : charAt inp q = nul
  · left
    refine ⟨h0, ?_⟩
    have hm : mkAt inp q = Lexer.mk inp q (q + 1) nul := by simp only [mkAt, h0]
    rw [hm]
    rfl
  · have hin : q < inp.length := lt_of_charAt_ne_nul inp q h0
    by_cases h1 : charAt inp q = '='
    · right
      have hm : mkAt inp q = Lexer.mk inp q (q + 1) '=' := by simp only [mkAt, h1]
      have hcomp : RootLexer.nextTokenD (mkAt inp q) =
          (newToken tok.ASSIGN (charAt inp q), readChar (mkAt inp q)) := by
        rw [hm, h1]; rfl
      rw [hcomp]
      exact tokSpec_single inp q tok.ASSIGN (by decide) hin hws
    · by_cases h2 : charAt inp q = ';'
      · right
        have hm : mkAt inp q = Lexer.mk inp q (q + 1) ';' := by simp only [mkAt, h2]
        have hcomp : RootLexer.nextTokenD (mkAt inp q) =
            (newToken tok.SEMICOLON (charAt inp q), readChar (mkAt inp q)) := by
          rw [hm, h2]; rfl
        rw [hcomp]
        exact tokSpec_single inp q tok.SEMICOLON (by decide) hin hws
      · by_cases h3 : charAt inp q = '('
        · right
          have hm : mkAt inp q = Lexer.mk inp q (q + 1) '(' := by simp only [mkAt, h3]
          have hcomp : RootLexer.nextTokenD (mkAt inp q) =
              (newToken tok.LPAREN (charAt inp q), readChar (mkAt inp q)) := by
            rw [hm, h3]; rfl
          rw [hcomp]
          exact tokSpec_single inp q tok.LPAREN (by decide) hin hws
        · by_cases h4 : charAt inp q = ')'
          · right
            have hm : mkAt inp q = Lexer.mk inp q (q + 1) ')' := by simp only [mkAt, h4]
            have hcomp : RootLexer.nextTokenD (mkAt inp q) =
                (newToken tok.RPAREN (charAt inp q), readChar (mkAt inp q)) := by
              rw [hm, h4]; rfl
            rw [hcomp]
            exact tokSpec_single inp q tok.RPAREN (by decide) hin hws
          · by_cases h5 : charAt inp q = ','
            · right
              have hm : mkAt inp q = Lexer.mk inp q (q + 1) ',' := by
                simp only [mkAt, h5]
              have hcomp : RootLexer.nextTokenD (mkAt inp q) =
                  (newToken tok.COMMA (charAt inp q), readChar (mkAt inp q)) := by
                rw [hm, h5]; rfl
              rw [hcomp]
              exact tokSpec_single inp q tok.COMMA (by decide) hin hws
            · by_cases h6 : charAt inp q = '+'
              · right
                have hm : mkAt inp q = Lexer.mk inp q (q + 1) '+' := by
                  simp only [mkAt, h6]
                have hcomp : RootLexer.nextTokenD (mkAt inp q) =
                    (newToken tok.PLUS (charAt inp q), readChar (mkAt inp q)) := by
                  rw [hm, h6]; rfl
                rw [hcomp]
                exact tokSpec_single inp q tok.PLUS (by decide) hin hws
              · by_cases h7 : charAt inp q = '{'
                · right
                  have hm : mkAt inp q = Lexer.mk inp q (q + 1) '{' := by
                    simp only [mkAt, h7]
                  have hcomp : RootLexer.nextTokenD (mkAt inp q) =
                      (newToken tok.LBRACE (charAt inp q), readChar (mkAt inp q)) := by
                    rw [hm, h7]; rfl
                  rw [hcomp]
                  exact tokSpec_single inp q tok.LBRACE (by decide) hin hws
                · by_cases h8 : charAt inp q = '}'
                  · right
                    have hm : mkAt inp q = Lexer.mk inp q (q + 1) '}' := by
                      simp only [mkAt, h8]
                    have hcomp : RootLexer.nextTokenD (mkAt inp q) =
                        (newToken tok.RBRACE (charAt inp q), readChar (mkAt inp q)) := by
                      rw [hm, h8]; rfl
                    rw [hcomp]
                    exact tokSpec_single inp q tok.RBRACE (by decide) hin hws
                  · by_cases hl : isLetter (charAt inp q) = true
                    · right
                      have hcomp : RootLexer.nextTokenD (mkAt inp q) =
                          (Token.mk
                            (tok.LookupIdentRoot ((inp.drop q).takeWhile isLetter))
                            ((inp.drop q).takeWhile isLetter),
                           mkAt inp (q + runLen isLetter inp q)) := by
                        simp only [RootLexer.nextTokenD, mkAt_ch]
                        rw [if_neg h1, if_neg h2, if_neg h3, if_neg h4, if_neg h5,
                          if_neg h6, if_neg h7, if_neg h8, if_neg h0, if_pos hl,
                          readIdentifier_mkAt]
                      rw [hcomp]
                      exact tokSpec_ident inp q hin hl
                    · by_cases hdg : isDigit (charAt inp q) = true
                      · right
                        have hcomp : RootLexer.nextTokenD (mkAt inp q) =
                            (Token.mk tok.INT ((inp.drop q).takeWhile isDigit),
                             mkAt inp (q + runLen isDigit inp q)) := by
                          simp only [RootLexer.nextTokenD, mkAt_ch]
                          rw [if_neg h1, if_neg h2, if_neg h3, if_neg h4, if_neg h5,
                            if_neg h6, if_neg h7, if_neg h8, if_neg h0, if_neg hl,
                            if_pos hdg, readNumber_mkAt]
                        rw [hcomp]
                        exact tokSpec_digits inp q hin hdg
                      · right
                        have hcomp : RootLexer.nextTokenD (mkAt inp q) =
                            (newToken tok.ILLEGAL (charAt inp q),
                             readChar (mkAt inp q)) := by
                          simp only [RootLexer.nextTokenD, mkAt_ch]
                          rw [if_neg h1, if_neg h2, if_neg h3, if_neg h4, if_neg h5,
                            if_neg h6, if_neg h7, if_neg h8, if_neg h0, if_neg hl,
                            if_neg hdg]
                        rw [hcomp]
                        exact tokSpec_single inp q tok.ILLEGAL (by decide) hin hws

/-- one full `NextToken` call from a canonical state: skip the whitespace
run, then either `EOF` (at the end of a NUL-free input) or a token
satisfying `TokSpec`. -/
theorem rootNextToken_spec (inp : List Char) (p : Nat) (hnul : nul ∉ inp) :
    (inp.length ≤ p + runLen isWS inp p ∧
      RootLexer.nextToken (mkAt inp p) =
        (Token.mk tok.EOF [], readChar (mkAt inp (p + runLen isWS inp p))))
    ∨ TokSpec inp (p + runLen isWS inp p) (RootLexer.nextToken (mkAt inp p)) := by
  have hskip : skipWhitespace (mkAt inp p) = mkAt inp (p + runLen isWS inp p) := by
    show skipWhitespaceF ((mkAt inp p).input.length + 1) (mkAt inp p) = _
    have hle := runLen_le isWS inp p
    exact skipWhitespaceF_mkAt inp (inp.length + 1) p (by omega)
  have hnx : RootLexer.nextToken (mkAt inp p) =
      RootLexer.nextTokenD (mkAt inp (p + runLen isWS inp p)) := by
    show RootLexer.nextTokenD (skipWhitespace (mkAt inp p)) = _
    rw [hskip]
  have hws : isWS (charAt inp (p + runLen isWS inp p)) = false :=
    runLen_stop isWS (by decide) inp p
  rcases rootNextTokenD_spec inp (p + runLen isWS inp p) hnul hws with ⟨hnulq, heq⟩ | hspec
  · left
    constructor
    · by_contra hlt
      push_neg at hlt
      exact charAt_ne_nul_of_lt inp _ hnul hlt hnulq
    · rw [hnx, heq]
  · right
    rw [hnx]
    exact hspec

/-- skipping the whitespace run does not change the whitespace-filtered
remainder of the input. -/
theorem filter_drop_ws (inp : List Char) (p : Nat) :
    (inp.drop p).filter (fun c => !isWS c) =
      (inp.drop (p + runLen isWS inp p)).filter (fun c => !isWS c) := by
  have hdw : (inp.drop p).dropWhile isWS = inp.drop (p + runLen isWS inp p) := by
    rw [dropWhile_eq_drop_length, List.drop_drop]
    rfl
  have hftw : ((inp.drop p).takeWhile isWS).filter (fun c => !isWS c) = [] := by
    apply List.filter_eq_nil_iff.mpr
    intro a ha
    have hws := mem_takeWhile_sat isWS (inp.drop p) a ha
    simp [hws]
  conv_lhs => rw [← List.takeWhile_append_dropWhile isWS (inp.drop p)]
  rw [List.filter_append, hftw, hdw]
  simp

/-- the central induction: from any canonical state over a NUL-free input,
with fuel exceeding the remaining input, the collected token stream ends
in a single `EOF`, the earlier tokens are not `EOF`, and their literals
concatenate to the whitespace-filtered remainder. -/
theorem lexAllF_mkAt_spec (inp : List Char) (hnul : nul ∉ inp) :
    ∀ (f p : Nat), inp.length - p < f →
      ∃ ts : List Token,
        RootLexer.lexAllF f (mkAt inp p) = ts ++ [Token.mk tok.EOF []] ∧
        (ts.map Token.literal).flatten = (inp.drop p).filter (fun c => !isWS c) ∧
        ∀ t ∈ ts, t.type ≠ tok.EOF := by
  intro f
  induction f with
  | zero => intro p h; omega
  | succ f ih =>
    intro p hf
    rcases rootNextToken_spec inp p hnul with ⟨hge, heq⟩ | hspec
    · refine ⟨[], ?_, ?_, by simp⟩
      · show (let r := RootLexer.nextToken (mkAt inp p);
          if r.1.type = tok.EOF then [r.1] else r.1 :: RootLexer.lexAllF f r.2) = _
        rw [heq]
        rfl
      · rw [filter_drop_ws inp p, List.drop_eq_nil_of_le hge]
        rfl
    · obtain ⟨hne, hwsfree, hty, hlex, hslice, hle⟩ := hspec
      have hL : 0 < (RootLexer.nextToken (mkAt inp p)).1.literal.length :=
        List.length_pos.mpr hne
      have hq : p ≤ p + runLen isWS inp p := by omega
      have hrec : RootLexer.lexAllF (f + 1) (mkAt inp p) =
          (RootLexer.nextToken (mkAt inp p)).1 ::
            RootLexer.lexAllF f (RootLexer.nextToken (mkAt inp p)).2 := by
        show (let r := RootLexer.nextToken (mkAt inp p);
          if r.1.type = tok.EOF then [r.1] else r.1 :: RootLexer.lexAllF f r.2) = _
        simp only []
        rw [if_neg hty]
      set q := p + runLen isWS inp p with hqdef
      set L := (RootLexer.nextToken (mkAt inp p)).1.literal.length with hLdef
      obtain ⟨ts, hts, hjoin, hnoEof⟩ := ih (q + L) (by omega)
      refine ⟨(RootLexer.nextToken (mkAt inp p)).1 :: ts, ?_, ?_, ?_⟩
      · rw [hrec, hlex, hts]
        rfl
      · have hdropsplit : inp.drop q =
            (RootLexer.nextToken (mkAt inp p)).1.literal ++ inp.drop (q + L) := by
          conv_lhs => rw [← List.take_append_drop L (inp.drop q)]
          rw [List.drop_drop]
          congr 1
          have hsl := hslice
          rw [show slice inp q (q + L) = (inp.drop q).take (q + L - q) from rfl,
            Nat.add_sub_cancel_left] at hsl
          exact hsl
        have hfiltlit :
            ((RootLexer.nextToken (mkAt inp p)).1.literal).filter (fun c => !isWS c) =
              (RootLexer.nextToken (mkAt inp p)).1.literal := by
          apply List.filter_eq_self.mpr
          intro a ha
          simp [hwsfree a ha]
        show (RootLexer.nextToken (mkAt inp p)).1.literal ++ (ts.map Token.literal).flatten = _
        rw [hjoin, filter_drop_ws inp p, ← hqdef, hdropsplit, List.filter_append, hfiltlit]
      · intro t ht
        rcases List.mem_cons.mp ht with rfl | ht'
        · exact hty
        · exact hnoEof t ht'

/-! ## Lexer-at-end and parser-stuck lemmas (for the non-termination of the
skip-to-semicolon loop). -/

/-- a lexer that has consumed its whole input: the position is past the
end, the read position one further, and the lookahead is the sentinel. -/
def LexAtEnd (l : Lexer) : Prop :=
  l.input.length ≤ l.position ∧ l.readPosition = l.position + 1 ∧ l.ch = nul

theorem readChar_atEnd (l : Lexer) (h : LexAtEnd l) : LexAtEnd (readChar l) := by
  obtain ⟨h1, h2, _⟩ := h
  refine ⟨?_, rfl, ?_⟩
  · show l.input.length ≤ l.readPosition
    omega
  · show (if l.input.length ≤ l.readPosition then nul else charAt l.input l.readPosition) = nul
    rw [if_pos (by omega)]

theorem skipWhitespaceF_of_not_ws (f : Nat) (l : Lexer) (h : isWS l.ch = false) :
    skipWhitespaceF f l = l := by
  cases f <;> simp [skipWhitespaceF, h]

theorem srcNextTokenD_nul (l : Lexer) (h : l.ch = nul) :
    SrcLexer.nextTokenD l = (Token.mk tok.EOF [], readChar l) := by
  obtain ⟨inp, pos, rp, c⟩ := l
  change c = nul at h
  subst h
  rfl

/-- at the end of the input, the pipeline lexer emits `EOF` tokens forever,
staying at the end. -/
theorem srcNextToken_atEnd (l : Lexer) (h : LexAtEnd l) :
    SrcLexer.nextToken l = (Token.mk tok.EOF [], readChar l) := by
  have hs : skipWhitespace l = l :=
    skipWhitespaceF_of_not_ws _ _ (by rw [h.2.2]; rfl)
  show SrcLexer.nextTokenD (skipWhitespace l) = _
  rw [hs]
  exact srcNextTokenD_nul l h.2.2

/-- a parser state from which nothing but `EOF` tokens will ever arrive. -/
def StuckState (s : ParserS) : Prop :=
  s.curToken.type = tok.EOF ∧ s.peekToken.type = tok.EOF ∧ LexAtEnd s.l

theorem pnext_stuck (s : ParserS) (h : StuckState s) : StuckState (pnext s) := by
  obtain ⟨h1, h2, h3⟩ := h
  unfold pnext
  rw [srcNextToken_atEnd s.l h3]
  exact ⟨h2, rfl, readChar_atEnd s.l h3⟩

/-- the `for !p.curTokenIs(token.SEMICOLON)` loop never terminates from a
stuck state: no fuel suffices. -/
theorem skipToSemicolonF_stuck (f : Nat) :
    ∀ s, StuckState s → skipToSemicolonF f s = none := by
  induction f with
  | zero => intro s _; rfl
  | succ f ih =>
    intro s hs
    have hne : ¬ s.curToken.type = tok.SEMICOLON := by
      rw [hs.1]; decide
    simp only [skipToSemicolonF]
    rw [if_neg hne]
    exact ih (pnext s) (pnext_stuck s hs)

/-- the parser right after `parser.New` on the semicolon-less `let x = 5`. -/
def c4parser : ParserS := parserNew (Lexer.new "let x = 5".data)

/-- the state after `parseLetStatement` has accepted `IDENT` and `ASSIGN`,
about to enter the skip-to-semicolon loop. -/
def c4afterAssign : ParserS :=
  (expectPeek (expectPeek c4parser tok.IDENT).2 tok.ASSIGN).2

/-- two skip iterations later, both window tokens are `EOF` and the lexer
is exhausted. -/
def c4stuckState : ParserS := pnext (pnext c4afterAssign)

theorem c4_skip_none : ∀ n, skipToSemicolonF n c4afterAssign = none := by
  intro n
  match n with
  | 0 => rfl
  | 1 => rfl
  | (m + 2) =>
    have h : skipToSemicolonF (m + 2) c4afterAssign =
        skipToSemicolonF m c4stuckState := rfl
    rw [h]
    exact skipToSemicolonF_stuck m c4stuckState ⟨rfl, rfl, by decide, rfl, rfl⟩

/-! ## Helper lemmas about the store (shared by the environment claims). -/

theorem storeLookup_update_self (st : List (String × Obj)) (n : String) (v : Obj) :
    storeLookup (storeUpdate st n v) n = some v := by
  induction st with
  | nil => simp [storeUpdate, storeLookup]
  | cons kv rest ih =>
    obtain ⟨k, w⟩ := kv
    by_cases h : k = n
    · simp [storeUpdate, storeLookup, h]
    · simp [storeUpdate, storeLookup, h, ih]

theorem storeLookup_update_other (st : List (String × Obj)) (n m : String)
    (v : Obj) (h : n ≠ m) : storeLookup (storeUpdate st m v) n = storeLookup st n := by
  induction st with
  | nil => simp [storeUpdate, storeLookup, Ne.symm h]
  | cons kv rest ih =>
    obtain ⟨k, w⟩ := kv
    by_cases hk : k = m
    · subst hk
      simp [storeUpdate, storeLookup, Ne.symm h]
    · simp [storeUpdate, storeLookup, hk, ih]

theorem storeLookup_eq_none_of_not_mem (st : List (String × Obj)) (m : String)
    (h : m ∉ st.map Prod.fst) : storeLookup st m = none := by
  induction st with
  | nil => rfl
  | cons kv rest ih =>
    obtain ⟨k, w⟩ := kv
    simp only [List.map, List.mem_cons] at h
    push_neg at h
    simp [storeLookup, Ne.symm h.1, ih h.2]

/-! ## Claim theorems. -/

/-- C1: the claim says `5 + true;` evaluates to
`Error("type mismatch: INTEGER + BOOLEAN")`. On the code it does not:
`Eval` routes every infix node straight into `evalIntegerInfixExpression`,
whose unchecked `*object.Integer` type assertion panics on the boolean
operand (`none` in this embedding), and no `Error` value is produced. -/
theorem C1_five_plus_true_panics_not_type_mismatch_error :
    (parseMain "5 + true;".data 99).map
      (fun r => Eval (Node.prog r.1.statements)) = some none ∧
    (parseMain "5 + true;".data 99).map
      (fun r => Eval (Node.prog r.1.statements)) ≠
      some (some (some (Obj.error "type mismatch: INTEGER + BOOLEAN"))) := by
  have h : (parseMain "5 + true;".data 99).map
      (fun r => Eval (Node.prog r.1.statements)) = some none := rfl
  exact ⟨h, by rw [h]; simp⟩

/-- C2 counterexample: the claim describes an environment with an optional
parent whose lookup, on a miss in the innermost frame, continues in the
parent chain. At the concrete instance (innermost frame empty, parent
binding `x ↦ 5`) the claimed lookup finds `(5, true)`, while the source's
`Environment` carries no parent at all and its `Get`, on the environment
whose (single) frame is empty, yields `(nil, false)`. -/
theorem C2_counterexample_no_parent_chain :
    specGet (EnvironmentSpec.mk []
        (some (EnvironmentSpec.mk [("x", Obj.integer 5)] none))) "x" =
      (some (Obj.integer 5), true) ∧
    envGet (Environment.mk []) "x" = (none, false) := ⟨rfl, rfl⟩

/-- C2 amended: an `Environment` is a name-to-value map and nothing else —
there is no parent reference. `Get` consults only that single map (a miss
there is final), and `Set` binds in that map only (it changes the binding
of exactly the written name). -/
theorem C2_environment_single_frame (e : Environment) (n m : String) (v : Obj)
    (hmiss : storeLookup e.store n = none) (hne : n ≠ m) :
    envGet e n = (none, false) ∧
    envGet (envSet e n v).1 n = (some v, true) ∧
    envGet (envSet e m v).1 n = envGet e n := by
  refine ⟨?_, ?_, ?_⟩
  · simp [envGet, hmiss]
  · simp [envGet, envSet, storeLookup_update_self]
  · simp [envGet, envSet, storeLookup_update_other e.store n m v hne]

/-- C2 witness: the amended statement at a concrete environment, name and
value. -/
theorem C2_environment_single_frame_witness :
    envGet (Environment.mk [("y", Obj.integer 1)]) "x" = (none, false) ∧
    envGet (envSet (Environment.mk [("y", Obj.integer 1)]) "x" (Obj.integer 2)).1 "x" =
      (some (Obj.integer 2), true) ∧
    envGet (envSet (Environment.mk [("y", Obj.integer 1)]) "z" (Obj.integer 2)).1 "x" =
      envGet (Environment.mk [("y", Obj.integer 1)]) "x" :=
  C2_environment_single_frame (Environment.mk [("y", Obj.integer 1)]) "x" "z"
    (Obj.integer 2) rfl (by simp)

/-- C3: the claim says `parseLetStatement` fills the statement's value with
the expression parsed at `LOWEST`. Evaluating the parser at `let x = 5;`
shows the produced Let statement carries the name `x` but an ABSENT value
(`none`): the source skips the tokens of the expression up to the
semicolon (its own TODO) and never assigns `stmt.Value`. -/
theorem C3_let_value_left_absent :
    (parseMain "let x = 5;".data 99).map
      (fun r => (r.1.statements, r.2.errors)) =
    some ([some (Stmt.letS (Token.mk tok.LET "let".data)
            (Ident.mk (Token.mk tok.IDENT "x".data) "x".data) none)], []) := rfl

/-- C4: the claim says the trailing semicolon of a let statement is
optional and `ParseProgram` terminates on every finite token stream, in
particular on `let x = 5`. On the code it does not: `parseLetStatement`
loops `for !p.curTokenIs(token.SEMICOLON) { p.nextToken() }`, and once the
lexer is exhausted every further token is `EOF`, so on `let x = 5`
(no semicolon anywhere) the loop never sees a semicolon — `ParseProgram`
diverges: no amount of fuel makes it return. -/
theorem C4_parse_let_without_semicolon_diverges :
    ∀ fuel, parseMain "let x = 5".data fuel = none := by
  intro fuel
  match fuel with
  | 0 => rfl
  | 1 => rfl
  | 2 => rfl
  | (n + 3) =>
    have h1 : parseStatementF (n + 2) c4parser =
        (match skipToSemicolonF n c4afterAssign with
          | none => none
          | some s3 => some (some (Stmt.letS (Token.mk tok.LET "let".data)
              (Ident.mk (Token.mk tok.IDENT "x".data) "x".data) none), s3)) := rfl
    have h2 : parseMain "let x = 5".data (n + 3) =
        (match parseStatementF (n + 2) c4parser with
          | none => none
          | some (st?, s') =>
            parseProgramLoop (n + 2) ([] ++ [st?]) (pnext s')).map
          (fun (r : List (Option Stmt) × ParserS) => (Program.mk r.1, r.2)) := rfl
    rw [h2, h1, c4_skip_none n]
    rfl

theorem lexerNew_eq_mkAt (input : List Char) : Lexer.new input = mkAt input 0 := by
  show readChar (Lexer.mk input 0 0 nul) = _
  simp only [readChar, mkAt]
  congr 1
  by_cases h : input.length ≤ 0
  · rw [if_pos h, charAt_of_ge input 0 h]
  · rw [if_neg h]

/-- C5 counterexample: the claim quantifies over EVERY source string, but a
source containing the zero byte refutes it. On `['a', NUL, 'b']` the lexer
reads the NUL as its end-of-input sentinel: it emits `IDENT "a"` and then
`EOF`, so the concatenation of the pre-EOF literals is `"a"`, while the
source minus whitespace is `['a', NUL, 'b']` (NUL is not whitespace).
Totality still holds; the concatenation clause fails. -/
theorem C5_counterexample_nul_byte :
    RootLexer.tokensOf ['a', nul, 'b'] =
      [Token.mk tok.IDENT ['a'], Token.mk tok.EOF []] ∧
    ((([Token.mk tok.IDENT ['a']] : List Token).map Token.literal).flatten ≠
      (['a', nul, 'b'].filter (fun c => !isWS c))) := by
  constructor
  · decide
  · decide

/-- C5 amended: for every source string WITHOUT the zero byte, lexing is
total — within `length + 1` calls `NextToken` yields `EOF`, every earlier
token is not `EOF` — and the concatenation of the literals of the tokens
before `EOF` is the source with the whitespace characters (space, tab,
CR, LF) removed. -/
theorem C5_lexing_total_and_concat (input : List Char) (hnul : nul ∉ input) :
    ∃ ts : List Token,
      RootLexer.tokensOf input = ts ++ [Token.mk tok.EOF []] ∧
      (∀ t ∈ ts, t.type ≠ tok.EOF) ∧
      (ts.map Token.literal).flatten = input.filter (fun c => !isWS c) := by
  have hmain := lexAllF_mkAt_spec input hnul (input.length + 1) 0 (by omega)
  obtain ⟨ts, hts, hjoin, hnoEof⟩ := hmain
  refine ⟨ts, ?_, hnoEof, ?_⟩
  · show RootLexer.lexAllF (input.length + 1) (Lexer.new input) = _
    rw [lexerNew_eq_mkAt input]
    exact hts
  · rw [hjoin]
    rfl

/-- C5 witness: the amended statement evaluated on the concrete source
`let five = 5;` (its hypothesis holds: the source has no NUL byte). -/
theorem C5_lexing_total_and_concat_witness :
    (nul ∉ "let five = 5;".data) ∧
    (∃ ts : List Token,
      RootLexer.tokensOf "let five = 5;".data = ts ++ [Token.mk tok.EOF []] ∧
      (∀ t ∈ ts, t.type ≠ tok.EOF) ∧
      (ts.map Token.literal).flatten =
        "let five = 5;".data.filter (fun c => !isWS c)) :=
  ⟨by decide, C5_lexing_total_and_concat "let five = 5;".data (by decide)⟩

/-- C6: lexing then parsing `-a * b` yields, with no parse errors, a
program rendering to `((-a) * b)`: `-`/`*` lex to MINUS/ASTERISK, the
Pratt loop applies PREFIX > PRODUCT, and the operator nodes render fully
parenthesised. (The pipeline lexer is modelled from the spec, its source
file being absent from the snapshot.) -/
theorem C6_neg_a_times_b_renders :
    (parseMain "-a * b".data 99).map
      (fun r => (renderProgram r.1, r.2.errors)) =
    some ("((-a) * b)".data, []) := rfl

/-- C7: the `!` operator maps the `TRUE` singleton to `FALSE`, the `FALSE`
and `NULL` singletons to `TRUE`, and every other value to `FALSE`. -/
theorem C7_bang_operator_table :
    evalBangOperatorExpression (some TRUE) = FALSE ∧
    evalBangOperatorExpression (some FALSE) = TRUE ∧
    evalBangOperatorExpression (some NULL) = TRUE ∧
    ∀ v : Obj, v ≠ TRUE → v ≠ FALSE → v ≠ NULL →
      evalBangOperatorExpression (some v) = FALSE := by
  refine ⟨rfl, rfl, rfl, ?_⟩
  intro v h1 h2 h3
  cases v with
  | boolean b =>
    cases b with
    | true => exact absurd rfl h1
    | false => exact absurd rfl h2
  | nullO => exact absurd rfl h3
  | integer _ => rfl
  | returnValue _ => rfl
  | error _ => rfl
  | function _ _ _ => rfl
  | stringO _ => rfl
  | builtin => rfl

/-- C7 witness: the table evaluated at the non-singleton value
`Integer 7`. -/
theorem C7_bang_operator_table_witness :
    evalBangOperatorExpression (some (Obj.integer 7)) = FALSE :=
  C7_bang_operator_table.2.2.2 (Obj.integer 7)
    (fun h => Obj.noConfusion h) (fun h => Obj.noConfusion h)
    (fun h => Obj.noConfusion h)

/-- C8 counterexample: the claim says the failed let construct is dropped
from the program. It is not: `parseStatement` returns the failed parse's
nil `*ast.LetStatement` inside a non-nil typed interface, so
`ParseProgram`'s `stmt != nil` guard passes and the nil statement is
appended — parsing `let x 5;` yields a program with TWO statements whose
first entry is the nil placeholder, not one statement. -/
theorem C8_counterexample_failed_let_not_dropped :
    (parseMain "let x 5;".data 99).map
      (fun r => (r.1.statements.length, r.1.statements.head?)) =
    some (2, some none) := rfl

/-- C8 amended: parsing `let x 5;` leaves exactly the error
`expected next token to be =, got INT instead` in the parser's error list
(`expectPeek` on `ASSIGN` fails against the `INT` peek token), and
`ParseProgram` still returns without aborting — but the failed let
construct is not dropped: it is appended as a nil statement (a Go
typed-nil interface value), so the program holds two statements, the nil
placeholder followed by the expression statement for `5`. -/
theorem C8_let_x_5_expectPeek_error :
    (parseMain "let x 5;".data 99).map
      (fun r => (r.2.errors, r.1.statements)) =
    some (["expected next token to be =, got INT instead"],
      [none, some (Stmt.exprStmt (Token.mk tok.INT "5".data)
        (some (Expr.intLit (Token.mk tok.INT "5".data) 5)))]) := rfl

/-- C9: every node variant outside `Program`, `ExpressionStatement`,
`IntegerLiteral`, `Boolean`, `PrefixExpression`, `InfixExpression` falls
past `Eval`'s switch and yields the absent result (Go's nil interface,
`some none` here) — not an `Error` and not `NULL`; the empty program is
absent too. -/
theorem C9_unhandled_variants_yield_nil :
    (∀ (t : Token) (n : Ident) (v : Option Expr),
      Eval (Node.stmt (Stmt.letS t n v)) = some none) ∧
    (∀ (t : Token) (v : Option Expr),
      Eval (Node.stmt (Stmt.returnS t v)) = some none) ∧
    (∀ b : Block, Eval (Node.stmt (Stmt.blockS b)) = some none) ∧
    (∀ i : Ident, Eval (Node.expr (Expr.identE i)) = some none) ∧
    (∀ (t : Token) (c : Option Expr) (cons : Block) (alt : Option Block),
      Eval (Node.expr (Expr.ifE t c cons alt)) = some none) ∧
    (∀ (t : Token) (ps : List Ident) (b : Block),
      Eval (Node.expr (Expr.funcLit t ps b)) = some none) ∧
    (∀ (t : Token) (f : Option Expr) (args : List (Option Expr)),
      Eval (Node.expr (Expr.callE t f args)) = some none) ∧
    Eval (Node.prog []) = some none :=
  ⟨fun _ _ _ => rfl, fun _ _ => rfl, fun _ => rfl, fun _ => rfl,
   fun _ _ _ _ => rfl, fun _ _ _ => rfl, fun _ _ _ => rfl, rfl⟩

/-- C10: `Set` returns the value it binds; `Get` immediately after `Set`
finds it; a later `Set` of the same name overwrites (last write wins); and
`Get` of a never-bound name has `false` in its second component. -/
theorem C10_set_get_laws (e : Environment) (n m : String) (v u : Obj)
    (hm : m ∉ e.store.map Prod.fst) :
    (envSet e n v).2 = v ∧
    envGet (envSet e n v).1 n = (some v, true) ∧
    envGet (envSet (envSet e n u).1 n v).1 n = (some v, true) ∧
    envGet e m = (none, false) := by
  refine ⟨rfl, ?_, ?_, ?_⟩
  · simp [envGet, envSet, storeLookup_update_self]
  · simp [envGet, envSet, storeLookup_update_self]
  · simp [envGet, storeLookup_eq_none_of_not_mem e.store m hm]

/-- C10 witness: the `Set`/`Get` laws at a concrete environment whose store
does not bind `z`. -/
theorem C10_set_get_laws_witness :
    (envSet (Environment.mk [("y", Obj.integer 1)]) "x" (Obj.integer 2)).2 =
      Obj.integer 2 ∧
    envGet (envSet (Environment.mk [("y", Obj.integer 1)]) "x" (Obj.integer 2)).1 "x" =
      (some (Obj.integer 2), true) ∧
    envGet (envSet (envSet (Environment.mk [("y", Obj.integer 1)]) "x"
        (Obj.integer 3)).1 "x" (Obj.integer 2)).1 "x" = (some (Obj.integer 2), true) ∧
    envGet (Environment.mk [("y", Obj.integer 1)]) "z" = (none, false) :=
  C10_set_get_laws (Environment.mk [("y", Obj.integer 1)]) "x" "z"
    (Obj.integer 2) (Obj.integer 3) (by simp)

end Monkey
